import Mathlib

/-!
Verification of the interval layout engine of the protviz repository.

The definitions below are shallow embeddings of the Python sources:
`src/protviz/tracks/pdb_track.py`, `src/protviz/tracks/interpro_track.py`,
`src/protviz/tracks/custom_track.py` and `src/protviz/core_plotting.py`.
Python integers are modelled as `Int`, float layout parameters as `ℚ`,
dict records as structures, and Python exceptions as `Except` values.
-/

namespace ProtViz

/-- One structure-coverage record (a PDBe dict): `unp_start`, `unp_end`
coordinates as looked up with default `0`, plus an opaque `tag` standing
for the remaining fields (`pdb_id`, chain, ...) so that records with equal
coordinates stay distinguishable. -/
structure PDBRec where
  ustart : Int
  uend : Int
  tag : Nat
  deriving DecidableEq, Repr

/-- Visibility test of `PDBTrack._layout_entries_for_view`:
`not (e.unp_end < view_start or e.unp_start > view_end)`. -/
def pdbVisibleB (vs ve : Int) (e : PDBRec) : Bool :=
  !(decide (e.uend < vs) || decide (e.ustart > ve))

/-- The filtered `visible_pdb_data` list (a Python list comprehension,
hence order preserving). -/
def pdbVisible (l : List PDBRec) (vs ve : Int) : List PDBRec :=
  l.filter (pdbVisibleB vs ve)

/-- Clipped start `max(unp_start, view_start)`. -/
def clipS (e : PDBRec) (vs : Int) : Int := max e.ustart vs

/-- Clipped end `min(unp_end, view_end)`. -/
def clipE (e : PDBRec) (ve : Int) : Int := min e.uend ve

/-- State of the greedy lane assignment loop: the accumulated
`(entry, lane_index)` list and `lanes_end_pos`. -/
structure LaneState where
  assign : List (PDBRec × Nat)
  laneEnds : List Int
  deriving DecidableEq, Repr

/-- `for i, lane_end in enumerate(lanes_end_pos): if layout_s > lane_end: ...` —
index of the first lane whose recorded end is left of `s`. -/
def findLane (s : Int) : List Int → Option Nat
  | [] => none
  | v :: rest => if v < s then some 0 else (findLane s rest).map (· + 1)

/-- One iteration of the full-mode loop of `PDBTrack._layout_entries_for_view`
(lines 148-166): clip to the view, skip when `layout_s >= layout_e`, else
place into the first free lane or append a new lane. -/
def pdbPlace (vs ve : Int) (st : LaneState) (e : PDBRec) : LaneState :=
  if clipE e ve ≤ clipS e vs then st
  else
    match findLane (clipS e vs) st.laneEnds with
    | some i => ⟨st.assign ++ [(e, i)], st.laneEnds.set i (clipE e ve)⟩
    | none => ⟨st.assign ++ [(e, st.laneEnds.length)], st.laneEnds ++ [clipE e ve]⟩

/-- Full-mode layout: filter for visibility, then run the greedy loop in
input order starting from empty lanes. -/
def pdbLayoutFull (l : List PDBRec) (vs ve : Int) : LaneState :=
  (pdbVisible l vs ve).foldl (pdbPlace vs ve) ⟨[], []⟩

/-- `self._lanes_assignment_view` after full-mode layout. -/
def pdbAssignments (l : List PDBRec) (vs ve : Int) : List (PDBRec × Nat) :=
  (pdbLayoutFull l vs ve).assign

/-- `self._num_lanes_view = len(lanes_end_pos)` after full-mode layout. -/
def pdbNumLanes (l : List PDBRec) (vs ve : Int) : Nat :=
  (pdbLayoutFull l vs ve).laneEnds.length

/-- Modelled from the spec (claim wording, for refinement comparison):
the lane assigner described by the spec clips each interval and assigns it
the lowest-index lane with `clipped.start > lane_ends[i]`, appending a new
lane when none exists — with no skip of zero-width clipped intervals. -/
def specPlace (vs ve : Int) (st : LaneState) (e : PDBRec) : LaneState :=
  match findLane (clipS e vs) st.laneEnds with
  | some i => ⟨st.assign ++ [(e, i)], st.laneEnds.set i (clipE e ve)⟩
  | none => ⟨st.assign ++ [(e, st.laneEnds.length)], st.laneEnds ++ [clipE e ve]⟩

/-- Modelled from the spec: first-fit layout as the claim words it,
applied to the visible annotations in input order. -/
def specFirstFitLayout (l : List PDBRec) (vs ve : Int) : LaneState :=
  (pdbVisible l vs ve).foldl (specPlace vs ve) ⟨[], []⟩

/-- A positive-width clipped interval: the code only places these. -/
def posClip (vs ve : Int) (e : PDBRec) : Prop := clipS e vs < clipE e ve

instance (vs ve : Int) (e : PDBRec) : Decidable (posClip vs ve e) := by
  unfold posClip; infer_instance

theorem pdbPlace_eq_specPlace (vs ve : Int) (st : LaneState) (e : PDBRec)
    (h : posClip vs ve e) : pdbPlace vs ve st e = specPlace vs ve st e := by
  unfold pdbPlace specPlace
  rw [if_neg (not_le.2 h)]

theorem foldl_place_eq_spec (vs ve : Int) :
    ∀ (es : List PDBRec) (st : LaneState), (∀ e ∈ es, posClip vs ve e) →
      es.foldl (pdbPlace vs ve) st = es.foldl (specPlace vs ve) st := by
  intro es
  induction es with
  | nil => intro st _; rfl
  | cons a t ih =>
    intro st h
    simp only [List.foldl_cons]
    rw [pdbPlace_eq_specPlace vs ve st a (h a (List.mem_cons_self a t))]
    exact ih _ fun e he => h e (List.mem_cons_of_mem a he)

theorem pdbPlace_skip (vs ve : Int) (st : LaneState) (a : PDBRec)
    (h : ¬ posClip vs ve a) : pdbPlace vs ve st a = st := by
  unfold pdbPlace
  rw [if_pos (not_lt.1 h)]

theorem pdbPlace_assign_map_fst (vs ve : Int) (st : LaneState) (a : PDBRec)
    (h : posClip vs ve a) :
    (pdbPlace vs ve st a).assign.map Prod.fst = st.assign.map Prod.fst ++ [a] := by
  unfold pdbPlace
  rw [if_neg (not_le.2 h)]
  cases hf : findLane (clipS a vs) st.laneEnds <;> simp [hf]

/-- Entries of the assignment list, in order, are exactly the processed
entries whose clipped interval has positive width. -/
theorem foldl_place_map_fst (vs ve : Int) :
    ∀ (es : List PDBRec) (st : LaneState),
      ((es.foldl (pdbPlace vs ve) st).assign).map Prod.fst =
        st.assign.map Prod.fst ++ es.filter (fun e => decide (posClip vs ve e)) := by
  intro es
  induction es with
  | nil => intro st; simp
  | cons a t ih =>
    intro st
    simp only [List.foldl_cons, List.filter_cons]
    by_cases h : posClip vs ve a
    · rw [if_pos (by simpa using h)]
      rw [ih (pdbPlace vs ve st a), pdbPlace_assign_map_fst vs ve st a h]
      simp
    · rw [pdbPlace_skip vs ve st a h, if_neg (by simpa using h)]
      exact ih st

theorem findLane_some (s : Int) :
    ∀ (ends : List Int) (i : Nat), findLane s ends = some i →
      ∃ v, ends[i]? = some v ∧ v < s := by
  intro ends
  induction ends with
  | nil => intro i h; simp [findLane] at h
  | cons v rest ih =>
    intro i h
    unfold findLane at h
    by_cases hv : v < s
    · rw [if_pos hv] at h
      cases h
      exact ⟨v, by simp, hv⟩
    · rw [if_neg hv] at h
      rcases Option.map_eq_some'.1 h with ⟨j, hj, rfl⟩
      rcases ih j hj with ⟨w, hw, hws⟩
      exact ⟨w, by simpa using hw, hws⟩

/-- Invariant of the greedy loop: every assigned lane index is a real lane
whose recorded end dominates the clipped end of each entry placed there, and
two entries sharing a lane are strictly separated (the later one starts
right of the earlier one's clipped end). -/
def LaneInv (vs ve : Int) (st : LaneState) : Prop :=
  (∀ p ∈ st.assign, ∃ v, st.laneEnds[p.2]? = some v ∧ clipE p.1 ve ≤ v)
  ∧ st.assign.Pairwise (fun p q => p.2 = q.2 → clipE p.1 ve < clipS q.1 vs)

theorem laneInv_place (vs ve : Int) (st : LaneState) (e : PDBRec)
    (h : LaneInv vs ve st) : LaneInv vs ve (pdbPlace vs ve st e) := by
  by_cases hp : posClip vs ve e
  · have hse : clipS e vs < clipE e ve := hp
    unfold pdbPlace
    rw [if_neg (not_le.2 hp)]
    cases hf : findLane (clipS e vs) st.laneEnds with
    | some i =>
      rcases findLane_some _ _ _ hf with ⟨v0, hv0, hv0lt⟩
      have hilen : i < st.laneEnds.length := (List.getElem?_eq_some.1 hv0).1
      constructor
      · intro p hpmem
        rcases List.mem_append.1 hpmem with hold | hnew
        · rcases h.1 p hold with ⟨v, hv, hle⟩
          by_cases hpi : p.2 = i
          · refine ⟨clipE e ve, ?_, ?_⟩
            · rw [hpi]; exact List.getElem?_set_self hilen
            · rw [hpi] at hv
              rw [hv0] at hv
              cases hv
              exact le_of_lt (lt_trans (lt_of_le_of_lt hle hv0lt) hse)
          · exact ⟨v, by rw [List.getElem?_set_ne (fun hh => hpi hh.symm)]; exact hv, hle⟩
        · rcases List.mem_singleton.1 hnew with rfl
          exact ⟨clipE e ve, List.getElem?_set_self hilen, le_refl _⟩
      · refine List.pairwise_append.2 ⟨h.2, List.pairwise_singleton _ _, ?_⟩
        intro p hpmem q hqmem hpq
        rcases List.mem_singleton.1 hqmem with rfl
        rcases h.1 p hpmem with ⟨v, hv, hle⟩
        simp only at hpq
        rw [hpq] at hv
        rw [hv0] at hv
        cases hv
        exact lt_of_le_of_lt hle hv0lt
    | none =>
      constructor
      · intro p hpmem
        rcases List.mem_append.1 hpmem with hold | hnew
        · rcases h.1 p hold with ⟨v, hv, hle⟩
          have hplen : p.2 < st.laneEnds.length := (List.getElem?_eq_some.1 hv).1
          exact ⟨v, by rw [List.getElem?_append_left hplen]; exact hv, hle⟩
        · rcases List.mem_singleton.1 hnew with rfl
          exact ⟨clipE e ve, List.getElem?_concat_length _ _, le_refl _⟩
      · refine List.pairwise_append.2 ⟨h.2, List.pairwise_singleton _ _, ?_⟩
        intro p hpmem q hqmem hpq
        rcases List.mem_singleton.1 hqmem with rfl
        rcases h.1 p hpmem with ⟨v, hv, _⟩
        have hplen : p.2 < st.laneEnds.length := (List.getElem?_eq_some.1 hv).1
        simp only at hpq
        omega
  · rw [pdbPlace_skip vs ve st e hp]
    exact h

theorem laneInv_foldl (vs ve : Int) :
    ∀ (es : List PDBRec) (st : LaneState), LaneInv vs ve st →
      LaneInv vs ve (es.foldl (pdbPlace vs ve) st) := by
  intro es
  induction es with
  | nil => intro st h; exact h
  | cons a t ih =>
    intro st h
    exact ih _ (laneInv_place vs ve st a h)

theorem laneInv_layout (l : List PDBRec) (vs ve : Int) :
    LaneInv vs ve (pdbLayoutFull l vs ve) :=
  laneInv_foldl vs ve _ _ ⟨by simp, List.Pairwise.nil⟩

theorem assign_lane_lt (l : List PDBRec) (vs ve : Int) :
    ∀ p ∈ pdbAssignments l vs ve, p.2 < pdbNumLanes l vs ve := by
  intro p hp
  rcases (laneInv_layout l vs ve).1 p hp with ⟨v, hv, _⟩
  exact (List.getElem?_eq_some.1 hv).1

theorem foldl_lanes_le_assign (vs ve : Int) :
    ∀ (es : List PDBRec) (st : LaneState),
      st.laneEnds.length ≤ st.assign.length →
      (es.foldl (pdbPlace vs ve) st).laneEnds.length ≤
        (es.foldl (pdbPlace vs ve) st).assign.length := by
  intro es
  induction es with
  | nil => intro st h; exact h
  | cons a t ih =>
    intro st h
    refine ih _ ?_
    unfold pdbPlace
    by_cases hc : clipE a ve ≤ clipS a vs
    · rw [if_pos hc]; exact h
    · rw [if_neg hc]
      cases hf : findLane (clipS a vs) st.laneEnds <;> simp <;> omega

/-- The full-mode layout uses no lanes exactly when it places no entries. -/
theorem pdbAssignments_nil_iff (l : List PDBRec) (vs ve : Int) :
    pdbAssignments l vs ve = [] ↔ pdbNumLanes l vs ve = 0 := by
  constructor
  · intro h
    have hle := foldl_lanes_le_assign vs ve (pdbVisible l vs ve) ⟨[], []⟩ (by simp)
    unfold pdbAssignments pdbLayoutFull at h
    unfold pdbNumLanes pdbLayoutFull
    rw [h] at hle
    simpa using hle
  · intro h
    cases hasg : pdbAssignments l vs ve with
    | nil => rfl
    | cons p t =>
      rcases (laneInv_layout l vs ve).1 p (by rw [show (pdbLayoutFull l vs ve).assign = pdbAssignments l vs ve from rfl, hasg]; exact List.mem_cons_self p t) with ⟨v, hv, _⟩
      have := (List.getElem?_eq_some.1 hv).1
      unfold pdbNumLanes at h
      omega

theorem posClip_visible (vs ve : Int) (e : PDBRec) (h : posClip vs ve e) :
    pdbVisibleB vs ve e = true := by
  unfold posClip clipS clipE at h
  unfold pdbVisibleB
  simp only [Bool.not_eq_true', Bool.or_eq_false_iff, decide_eq_false_iff_not]
  omega

theorem nodup_lt_length_le (xs : List Nat) (n : Nat) (hnd : xs.Nodup)
    (hlt : ∀ x ∈ xs, x < n) : xs.length ≤ n := by
  have h1 : xs.toFinset.card = xs.length := List.toFinset_card_of_nodup hnd
  have h2 : xs.toFinset ⊆ Finset.range n := fun x hx =>
    Finset.mem_range.2 (hlt x (List.mem_toFinset.1 hx))
  have h3 := Finset.card_le_card h2
  rw [h1, Finset.card_range] at h3
  exact h3

/-- Claim C8 (amended): any family of pairwise-overlapping clipped intervals
of positive width forces at least that many lanes in full mode. -/
theorem c8_clique_lane_bound (l : List PDBRec) (vs ve : Int) (c : List PDBRec)
    (hsub : c.Sublist l)
    (hpos : ∀ e ∈ c, posClip vs ve e)
    (hover : c.Pairwise (fun a b =>
      clipS b vs ≤ clipE a ve ∧ clipS a vs ≤ clipE b ve)) :
    c.length ≤ pdbNumLanes l vs ve := by
  have hcidem : c.filter (pdbVisibleB vs ve) = c :=
    List.filter_eq_self.2 fun a ha => posClip_visible vs ve a (hpos a ha)
  have hsubvis : c.Sublist (pdbVisible l vs ve) := by
    have := hsub.filter (pdbVisibleB vs ve)
    rwa [hcidem] at this
  have hcidem2 : c.filter (fun e => decide (posClip vs ve e)) = c :=
    List.filter_eq_self.2 fun a ha => decide_eq_true (hpos a ha)
  have hsubpos : c.Sublist ((pdbVisible l vs ve).filter
      (fun e => decide (posClip vs ve e))) := by
    have := hsubvis.filter (fun e => decide (posClip vs ve e))
    rwa [hcidem2] at this
  have hmap : (pdbAssignments l vs ve).map Prod.fst =
      (pdbVisible l vs ve).filter (fun e => decide (posClip vs ve e)) := by
    have := foldl_place_map_fst vs ve (pdbVisible l vs ve) ⟨[], []⟩
    simpa [pdbAssignments, pdbLayoutFull] using this
  rw [← hmap] at hsubpos
  rcases List.sublist_map_iff.1 hsubpos with ⟨ca, hca_sub, hc_eq⟩
  have hsep : ca.Pairwise
      (fun p q => p.2 = q.2 → clipE p.1 ve < clipS q.1 vs) :=
    List.Pairwise.sublist hca_sub (laneInv_layout l vs ve).2
  have hovca : ca.Pairwise (fun p q =>
      clipS q.1 vs ≤ clipE p.1 ve ∧ clipS p.1 vs ≤ clipE q.1 ve) := by
    rw [hc_eq] at hover
    exact List.pairwise_map.1 hover
  have hnelanes : ca.Pairwise (fun p q => p.2 ≠ q.2) := by
    refine (hsep.and hovca).imp ?_
    intro p q hpq heq
    exact absurd (hpq.1 heq) (not_lt.2 hpq.2.1)
  have hnd : (ca.map Prod.snd).Nodup := List.pairwise_map.2 hnelanes
  have hbound : ∀ x ∈ ca.map Prod.snd, x < pdbNumLanes l vs ve := by
    intro x hx
    rcases List.mem_map.1 hx with ⟨p, hpmem, rfl⟩
    exact assign_lane_lt l vs ve p (hca_sub.subset hpmem)
  have hlen := nodup_lt_length_le (ca.map Prod.snd) (pdbNumLanes l vs ve) hnd hbound
  have hclen : c.length = ca.length := by rw [hc_eq, List.length_map]
  rw [List.length_map] at hlen
  omega

/-- Witness for C8 (amended): two genuinely overlapping intervals need two
lanes in the PDB track's full mode. -/
theorem c8_witness :
    ([PDBRec.mk 10 20 5, PDBRec.mk 15 25 6] : List PDBRec).length ≤
      pdbNumLanes [PDBRec.mk 10 20 5, PDBRec.mk 15 25 6] 1 100 :=
  c8_clique_lane_bound [PDBRec.mk 10 20 5, PDBRec.mk 15 25 6] 1 100
    [PDBRec.mk 10 20 5, PDBRec.mk 15 25 6]
    (List.Sublist.refl _) (by decide) (by decide)

/-- Counterexample to C8 as stated: two point annotations at residue 5 are
mutually overlapping inside the view (1,10), a clique of size 2, yet the
code assigns zero lanes because zero-width clipped intervals are skipped. -/
theorem c8_point_clique_counterexample :
    (∀ e ∈ [PDBRec.mk 5 5 0, PDBRec.mk 5 5 1], pdbVisibleB 1 10 e = true) ∧
    ([PDBRec.mk 5 5 0, PDBRec.mk 5 5 1].Pairwise (fun a b =>
      clipS b 1 ≤ clipE a 10 ∧ clipS a 1 ≤ clipE b 10)) ∧
    pdbNumLanes [PDBRec.mk 5 5 0, PDBRec.mk 5 5 1] 1 10 = 0 :=
  ⟨by decide, by decide, by decide⟩

/-- Claim C1 (amended): on visible annotations whose clipped intervals have
positive width, the full-mode loop is exactly the first-fit lane assigner of
the spec: clip, place into the lowest-index lane whose end is left of the
clipped start, else append a new lane. -/
theorem c1_lane_assigner_first_fit (l : List PDBRec) (vs ve : Int)
    (h : ∀ e ∈ pdbVisible l vs ve, posClip vs ve e) :
    pdbLayoutFull l vs ve = specFirstFitLayout l vs ve :=
  foldl_place_eq_spec vs ve _ _ h

/-- Witness for C1: scenario A — annotations (10,20),(15,25),(30,40), view
(1,100) — matches the spec assigner and yields lanes 0,1,0 with 2 lanes. -/
theorem c1_scenarioA_witness :
    pdbLayoutFull [PDBRec.mk 10 20 0, PDBRec.mk 15 25 1, PDBRec.mk 30 40 2] 1 100 =
      specFirstFitLayout
        [PDBRec.mk 10 20 0, PDBRec.mk 15 25 1, PDBRec.mk 30 40 2] 1 100 ∧
    pdbAssignments [PDBRec.mk 10 20 0, PDBRec.mk 15 25 1, PDBRec.mk 30 40 2] 1 100 =
      [(PDBRec.mk 10 20 0, 0), (PDBRec.mk 15 25 1, 1), (PDBRec.mk 30 40 2, 0)] ∧
    pdbNumLanes [PDBRec.mk 10 20 0, PDBRec.mk 15 25 1, PDBRec.mk 30 40 2] 1 100 = 2 :=
  ⟨c1_lane_assigner_first_fit _ 1 100 (by decide), by decide, by decide⟩

/-- Counterexample to C1 as stated: a visible point annotation (5,5) in view
(1,10) is clipped to the zero-width interval (5,5) and then skipped, whereas
the claimed assigner would give it lane 0. -/
theorem c1_point_counterexample :
    pdbLayoutFull [PDBRec.mk 5 5 0] 1 10 ≠ specFirstFitLayout [PDBRec.mk 5 5 0] 1 10 ∧
    pdbAssignments [PDBRec.mk 5 5 0] 1 10 = [] ∧
    (specFirstFitLayout [PDBRec.mk 5 5 0] 1 10).assign = [(PDBRec.mk 5 5 0, 0)] :=
  ⟨by decide, by decide, by decide⟩

/-- Claim C4 (amended): exactly the visible annotations with positive-width
clipped intervals receive lanes; a zero-width clip — in particular a point
annotation inside the window — is skipped without consuming a lane. -/
theorem c4_zero_width_skip (l : List PDBRec) (vs ve : Int) :
    (∀ p ∈ pdbAssignments l vs ve, posClip vs ve p.1) ∧
    (∀ e ∈ pdbVisible l vs ve, posClip vs ve e →
      ∃ i, (e, i) ∈ pdbAssignments l vs ve) := by
  have hmap : (pdbAssignments l vs ve).map Prod.fst =
      (pdbVisible l vs ve).filter (fun e => decide (posClip vs ve e)) := by
    have := foldl_place_map_fst vs ve (pdbVisible l vs ve) ⟨[], []⟩
    simpa [pdbAssignments, pdbLayoutFull] using this
  constructor
  · intro p hp
    have hmem : p.1 ∈ (pdbAssignments l vs ve).map Prod.fst :=
      List.mem_map.2 ⟨p, hp, rfl⟩
    rw [hmap] at hmem
    exact of_decide_eq_true (List.mem_filter.1 hmem).2
  · intro e he hpc
    have hmem : e ∈ (pdbAssignments l vs ve).map Prod.fst := by
      rw [hmap]
      exact List.mem_filter.2 ⟨he, decide_eq_true hpc⟩
    rcases List.mem_map.1 hmem with ⟨p, hpmem, hfst⟩
    refine ⟨p.2, ?_⟩
    have : (e, p.2) = p := by
      rw [← hfst]
    rw [this]
    exact hpmem

/-- Witness for C4 (amended): a positive-width annotation gets a lane even
next to a skipped point annotation. -/
theorem c4_witness :
    ∃ i, (PDBRec.mk 10 20 1, i) ∈
      pdbAssignments [PDBRec.mk 50 50 0, PDBRec.mk 10 20 1] 1 100 :=
  (c4_zero_width_skip _ 1 100).2 _ (by decide) (by decide)

/-- Counterexample to C4 as stated: the point annotation (50,50) lies inside
the view (1,100) and is visible, yet it receives no lane and the lane count
stays 0 — the code treats the clipped interval [50,50] as empty. -/
theorem c4_point_counterexample :
    (PDBRec.mk 50 50 0) ∈ pdbVisible [PDBRec.mk 50 50 0] 1 100 ∧
    pdbAssignments [PDBRec.mk 50 50 0] 1 100 = [] ∧
    pdbNumLanes [PDBRec.mk 50 50 0] 1 100 = 0 :=
  ⟨by decide, by decide, by decide⟩

/-- A record's coordinate pair is merge-valid unless both coordinates are
the defaulted `0` (`unp_start`/`unp_end` missing). -/
def validPair (p : Int × Int) : Prop := ¬(p.1 = 0 ∧ p.2 = 0)

instance (p : Int × Int) : Decidable (validPair p) := by
  unfold validPair; infer_instance

def validPairB (p : Int × Int) : Bool := decide (validPair p)

/-- The sweep loop of `PDBTrack._calculate_merged_regions` (lines 105-118):
skip `(0,0)` entries, merge when `next_start <= current_end + 1`, else emit
the current region and restart from the next entry. -/
def mergeLoop (cur : Int × Int) :
    List (Int × Int) → List (Int × Int) → List (Int × Int)
  | [], acc => acc ++ [cur]
  | p :: t, acc =>
    if p.1 = 0 ∧ p.2 = 0 then mergeLoop cur t acc
    else if p.1 ≤ cur.2 + 1 then mergeLoop (cur.1, max cur.2 p.2) t acc
    else mergeLoop p t (acc ++ [cur])

/-- Initialisation of `_calculate_merged_regions` (lines 80-103): a single
all-zero entry yields nothing; an all-zero head looks for the first valid
entry (returning nothing if none exists); then the sweep runs over the
entries from index 1 on. -/
def mergeCore : List (Int × Int) → List (Int × Int)
  | [] => []
  | c :: tail =>
    if c.1 = 0 ∧ c.2 = 0 ∧ tail = [] then []
    else if c.1 = 0 ∧ c.2 = 0 then
      match (c :: tail).find? validPairB with
      | none => []
      | some v => mergeLoop v tail []
    else mergeLoop c tail []

/-- Sort key of the merger: ascending `(unp_start, unp_end)`. -/
def pdbKeyLE (a b : PDBRec) : Prop :=
  a.ustart < b.ustart ∨ (a.ustart = b.ustart ∧ a.uend ≤ b.uend)

instance : DecidableRel pdbKeyLE := fun a b => by
  unfold pdbKeyLE; infer_instance

instance : IsTotal PDBRec pdbKeyLE := ⟨by intro a b; unfold pdbKeyLE; omega⟩

instance : IsTrans PDBRec pdbKeyLE := ⟨by intro a b c; unfold pdbKeyLE; omega⟩

/-- Python's stable `sorted(..., key=lambda x: (unp_start, unp_end))`. -/
def sortRecs (l : List PDBRec) : List PDBRec := List.insertionSort pdbKeyLE l

def recCoords (e : PDBRec) : Int × Int := (e.ustart, e.uend)

/-- `PDBTrack._calculate_merged_regions`: sort by `(unp_start, unp_end)`,
then sweep over the coordinate pairs. -/
def calcMergedRegions (l : List PDBRec) : List (Int × Int) :=
  mergeCore ((sortRecs l).map recCoords)

/-- Collapse-mode pipeline: merge the visible (unclipped) records. -/
def pdbMergedForView (l : List PDBRec) (vs ve : Int) : List (Int × Int) :=
  calcMergedRegions (pdbVisible l vs ve)

theorem mergeCore_cons (c : Int × Int) (tail : List (Int × Int)) :
    mergeCore (c :: tail) =
      if c.1 = 0 ∧ c.2 = 0 ∧ tail = [] then []
      else if c.1 = 0 ∧ c.2 = 0 then
        match (c :: tail).find? validPairB with
        | none => []
        | some v => mergeLoop v tail []
      else mergeLoop c tail [] := rfl

theorem mergeLoop_gapFree :
    ∀ (rest : List (Int × Int)) (cur : Int × Int) (acc : List (Int × Int)),
      (∀ p ∈ rest, validPair p → p.1 ≤ p.2) →
      cur.1 ≤ cur.2 →
      acc.Pairwise (fun r1 r2 => r1.2 + 1 < r2.1) →
      (∀ r ∈ acc, r.2 + 1 < cur.1) →
      (mergeLoop cur rest acc).Pairwise (fun r1 r2 => r1.2 + 1 < r2.1) := by
  intro rest
  induction rest with
  | nil =>
    intro cur acc _ _ hacc haccCur
    unfold mergeLoop
    refine List.pairwise_append.2 ⟨hacc, List.pairwise_singleton _ _, ?_⟩
    intro a ha b hb
    rcases List.mem_singleton.1 hb with rfl
    exact haccCur a ha
  | cons p t ih =>
    intro cur acc hwf hcur hacc haccCur
    unfold mergeLoop
    by_cases hp0 : p.1 = 0 ∧ p.2 = 0
    · rw [if_pos hp0]
      exact ih cur acc (fun q hq => hwf q (List.mem_cons_of_mem _ hq)) hcur hacc haccCur
    · rw [if_neg hp0]
      have hpwf : p.1 ≤ p.2 := hwf p (List.mem_cons_self p t) hp0
      by_cases hm : p.1 ≤ cur.2 + 1
      · rw [if_pos hm]
        refine ih _ acc (fun q hq => hwf q (List.mem_cons_of_mem _ hq))
          (le_trans hcur (le_max_left _ _)) hacc haccCur
      · rw [if_neg hm]
        refine ih p (acc ++ [cur]) (fun q hq => hwf q (List.mem_cons_of_mem _ hq))
          hpwf ?_ ?_
        · refine List.pairwise_append.2 ⟨hacc, List.pairwise_singleton _ _, ?_⟩
          intro a ha b hb
          rcases List.mem_singleton.1 hb with rfl
          exact haccCur a ha
        · intro r hr
          rcases List.mem_append.1 hr with hra | hrc
          · have := haccCur r hra
            omega
          · rcases List.mem_singleton.1 hrc with rfl
            omega

/-- Claim C2: the collapse-mode merger never outputs two regions that
overlap or touch — consecutive output regions are separated by a gap of at
least one unit. -/
theorem c2_merge_gap_free (l : List PDBRec)
    (h : ∀ e ∈ l, 1 ≤ e.ustart ∧ e.ustart ≤ e.uend) :
    (calcMergedRegions l).Pairwise (fun r1 r2 => r1.2 + 1 < r2.1) := by
  unfold calcMergedRegions
  have hperm : (sortRecs l).Perm l := List.perm_insertionSort _ _
  have hall : ∀ p ∈ (sortRecs l).map recCoords, 1 ≤ p.1 ∧ p.1 ≤ p.2 := by
    intro p hp
    rcases List.mem_map.1 hp with ⟨e, he, rfl⟩
    exact h e (hperm.subset he)
  cases hml : (sortRecs l).map recCoords with
  | nil => exact List.Pairwise.nil
  | cons c tail =>
    rw [hml] at hall
    have hc : 1 ≤ c.1 ∧ c.1 ≤ c.2 := hall c (List.mem_cons_self c tail)
    rw [mergeCore_cons]
    have hc1 : ¬(c.1 = 0 ∧ c.2 = 0 ∧ tail = []) := by
      rintro ⟨h1, -, -⟩
      omega
    have hc2 : ¬(c.1 = 0 ∧ c.2 = 0) := by
      rintro ⟨h1, -⟩
      omega
    rw [if_neg hc1, if_neg hc2]
    refine mergeLoop_gapFree tail c []
      (fun q hq _ => (hall q (List.mem_cons_of_mem _ hq)).2) hc.2
      List.Pairwise.nil ?_
    intro r hr
    exact absurd hr (List.not_mem_nil r)

/-- Witness for C2: scenario D — adjacent intervals (10,20) and (21,30)
merge to the single region (10,30), and the output is gap-free. -/
theorem c2_scenarioD_witness :
    calcMergedRegions [PDBRec.mk 10 20 0, PDBRec.mk 21 30 1] = [(10, 30)] ∧
    (calcMergedRegions [PDBRec.mk 10 20 0, PDBRec.mk 21 30 1]).Pairwise
      (fun r1 r2 => r1.2 + 1 < r2.1) :=
  ⟨by decide, c2_merge_gap_free _ (by decide)⟩

theorem mergeLoop_cons (cur p : Int × Int) (t acc : List (Int × Int)) :
    mergeLoop cur (p :: t) acc =
      if p.1 = 0 ∧ p.2 = 0 then mergeLoop cur t acc
      else if p.1 ≤ cur.2 + 1 then mergeLoop (cur.1, max cur.2 p.2) t acc
      else mergeLoop p t (acc ++ [cur]) := rfl

theorem validPairB_eq_true {p : Int × Int} (h : validPair p) :
    validPairB p = true := decide_eq_true h

theorem validPairB_eq_false {p : Int × Int} (h : ¬ validPair p) :
    validPairB p = false := decide_eq_false h

theorem validPairB_ne_true {p : Int × Int} (h : ¬ validPair p) :
    ¬ (validPairB p = true) := by
  rw [validPairB_eq_false h]
  exact Bool.false_ne_true

theorem mergeLoop_filter :
    ∀ (rest : List (Int × Int)) (cur : Int × Int) (acc : List (Int × Int)),
      mergeLoop cur rest acc = mergeLoop cur (rest.filter validPairB) acc := by
  intro rest
  induction rest with
  | nil => intro cur acc; rfl
  | cons p t ih =>
    intro cur acc
    rw [mergeLoop_cons]
    by_cases hp0 : p.1 = 0 ∧ p.2 = 0
    · rw [if_pos hp0, List.filter_cons,
        if_neg (validPairB_ne_true (not_not_intro hp0))]
      exact ih cur acc
    · rw [if_neg hp0, List.filter_cons, if_pos (validPairB_eq_true hp0)]
      rw [mergeLoop_cons cur p (t.filter validPairB) acc]
      rw [if_neg hp0]
      by_cases hm : p.1 ≤ cur.2 + 1
      · rw [if_pos hm, if_pos hm]
        exact ih _ acc
      · rw [if_neg hm, if_neg hm]
        exact ih _ _

theorem find?_eq_filter_head {α : Type} (p : α → Bool) :
    ∀ l : List α, l.find? p = (l.filter p).head? := by
  intro l
  induction l with
  | nil => rfl
  | cons a t ih =>
    rw [List.filter_cons]
    by_cases h : p a = true
    · rw [List.find?_cons_of_pos t h, if_pos h]
      rfl
    · rw [List.find?_cons_of_neg t h, if_neg h]
      exact ih

theorem mergeCore_filter (cs : List (Int × Int))
    (hwf : ∀ p ∈ cs, validPair p → p.1 ≤ p.2) :
    mergeCore cs = mergeCore (cs.filter validPairB) := by
  cases cs with
  | nil => rfl
  | cons c tail =>
    by_cases hc0 : c.1 = 0 ∧ c.2 = 0
    · have hcb : validPairB c = false := validPairB_eq_false (not_not_intro hc0)
      rw [List.filter_cons, if_neg (validPairB_ne_true (not_not_intro hc0))]
      cases hft : tail.filter validPairB with
      | nil =>
        rw [mergeCore_cons]
        by_cases ht : tail = []
        · rw [if_pos ⟨hc0.1, hc0.2, ht⟩]
          rfl
        · rw [if_neg (fun hcon => ht hcon.2.2), if_pos hc0]
          have hfind : (c :: tail).find? validPairB = none := by
            rw [List.find?_cons_of_neg tail (validPairB_ne_true (not_not_intro hc0))]
            rw [find?_eq_filter_head, hft]
            rfl
          rw [hfind]
          rfl
      | cons v r =>
        have htail_ne : tail ≠ [] := by
          intro hcon
          rw [hcon, List.filter_nil] at hft
          exact List.noConfusion hft
        rw [mergeCore_cons]
        rw [if_neg (fun hcon => htail_ne hcon.2.2), if_pos hc0]
        have hfind : (c :: tail).find? validPairB = some v := by
          rw [List.find?_cons_of_neg tail (validPairB_ne_true (not_not_intro hc0))]
          rw [find?_eq_filter_head, hft]
          rfl
        rw [hfind]
        show mergeLoop v tail [] = mergeCore (v :: r)
        have hvmem : v ∈ tail.filter validPairB := by
          rw [hft]
          exact List.mem_cons_self v r
        have hvb : validPairB v = true := List.of_mem_filter hvmem
        have hvvalid : validPair v := by
          have := hvb
          unfold validPairB at this
          exact of_decide_eq_true this
        have hvwf : v.1 ≤ v.2 :=
          hwf v (List.mem_cons_of_mem c (List.mem_of_mem_filter hvmem)) hvvalid
        rw [mergeCore_cons]
        have hv0 : ¬(v.1 = 0 ∧ v.2 = 0) := hvvalid
        rw [if_neg (fun hcon => hv0 ⟨hcon.1, hcon.2.1⟩), if_neg hv0]
        rw [mergeLoop_filter tail v [], hft]
        rw [mergeLoop_cons v v r []]
        rw [if_neg hv0, if_pos (by omega : v.1 ≤ v.2 + 1), max_self]
    · have hcb : validPairB c = true := validPairB_eq_true hc0
      rw [List.filter_cons, if_pos hcb]
      rw [mergeCore_cons, mergeCore_cons]
      rw [if_neg (fun hcon => hc0 ⟨hcon.1, hcon.2.1⟩), if_neg hc0,
        if_neg (fun hcon => hc0 ⟨hcon.1, hcon.2.1⟩), if_neg hc0]
      exact mergeLoop_filter tail c []

/-- Lexicographic key order on coordinate pairs. -/
def pairKeyLE (a b : Int × Int) : Prop :=
  a.1 < b.1 ∨ (a.1 = b.1 ∧ a.2 ≤ b.2)

instance : DecidableRel pairKeyLE := fun a b => by
  unfold pairKeyLE; infer_instance

instance : IsAntisymm (Int × Int) pairKeyLE := by
  refine ⟨fun a b hab hba => ?_⟩
  unfold pairKeyLE at hab hba
  refine Prod.ext ?_ ?_ <;> omega

def validRecB (e : PDBRec) : Bool := validPairB (recCoords e)

theorem sortRecs_coords_sorted (l : List PDBRec) :
    ((sortRecs l).map recCoords).Pairwise pairKeyLE := by
  refine List.pairwise_map.2 ?_
  have h := List.sorted_insertionSort pdbKeyLE l
  exact h.imp fun hab => hab

theorem sorted_filter_coords (l : List PDBRec) :
    ((sortRecs l).map recCoords).filter validPairB =
      (sortRecs (l.filter validRecB)).map recCoords := by
  refine List.eq_of_perm_of_sorted (r := pairKeyLE) ?_ ?_ ?_
  · have h1 : ((sortRecs l).map recCoords).filter validPairB =
        ((sortRecs l).filter validRecB).map recCoords := by
      rw [List.filter_map]
      rfl
    rw [h1]
    refine List.Perm.map recCoords ?_
    have hp1 : ((sortRecs l).filter validRecB).Perm (l.filter validRecB) :=
      List.Perm.filter validRecB (List.perm_insertionSort pdbKeyLE l)
    have hp2 : (sortRecs (l.filter validRecB)).Perm (l.filter validRecB) :=
      List.perm_insertionSort pdbKeyLE (l.filter validRecB)
    exact hp1.trans hp2.symm
  · exact List.Pairwise.filter validPairB (sortRecs_coords_sorted l)
  · exact sortRecs_coords_sorted (l.filter validRecB)

/-- Claim C10: records with both coordinates defaulted to 0 are invalid for
the merger — deleting them does not change the merged regions, and if only
such records are present the output is empty. Valid records are assumed
well-formed (`unp_start <= unp_end`), as guaranteed upstream. -/
theorem c10_invalid_records_skipped (l : List PDBRec)
    (hwf : ∀ e ∈ l, validPair (recCoords e) → e.ustart ≤ e.uend) :
    calcMergedRegions l = calcMergedRegions (l.filter validRecB) ∧
    ((∀ e ∈ l, ¬ validPair (recCoords e)) → calcMergedRegions l = []) := by
  have hmain : calcMergedRegions l = calcMergedRegions (l.filter validRecB) := by
    unfold calcMergedRegions
    rw [mergeCore_filter _ ?_]
    · rw [sorted_filter_coords]
    · intro p hp hv
      rcases List.mem_map.1 hp with ⟨e, he, rfl⟩
      exact hwf e ((List.perm_insertionSort _ _).subset he) hv
  refine ⟨hmain, fun hall => ?_⟩
  rw [hmain]
  have hnil : l.filter validRecB = [] := by
    refine List.filter_eq_nil_iff.2 fun a ha => ?_
    simp only [validRecB, validPairB, Bool.not_eq_true, decide_eq_false_iff_not]
    exact hall a ha
  rw [hnil]
  rfl

/-- Witness for C10: a (0,0) record next to a (3,7) record changes nothing,
and an all-invalid list merges to nothing. -/
theorem c10_witness :
    calcMergedRegions [PDBRec.mk 0 0 0, PDBRec.mk 3 7 1] =
      calcMergedRegions (([PDBRec.mk 0 0 0, PDBRec.mk 3 7 1]).filter validRecB) ∧
    calcMergedRegions [PDBRec.mk 0 0 0, PDBRec.mk 3 7 1] = [(3, 7)] ∧
    calcMergedRegions [PDBRec.mk 0 0 5] = [] :=
  ⟨(c10_invalid_records_skipped _ (by decide)).1, by decide,
    (c10_invalid_records_skipped _ (by decide)).2 (by decide)⟩

theorem pdbVisibleB_iff (vs ve : Int) (e : PDBRec) :
    pdbVisibleB vs ve e = true ↔ ¬(e.uend < vs ∨ e.ustart > ve) := by
  unfold pdbVisibleB
  simp only [Bool.not_eq_true', Bool.or_eq_false_iff, decide_eq_false_iff_not]
  omega

/-- The assignment list pairs exactly the positive-width visible entries. -/
theorem pdbAssignments_map_fst (l : List PDBRec) (vs ve : Int) :
    (pdbAssignments l vs ve).map Prod.fst =
      (pdbVisible l vs ve).filter (fun e => decide (posClip vs ve e)) := by
  have h := foldl_place_map_fst vs ve (pdbVisible l vs ve) ⟨[], []⟩
  simpa [pdbAssignments, pdbLayoutFull] using h

/-- Claim C3: the view filter keeps exactly the annotations overlapping the
window, preserving input order; an annotation invisible for the window — in
particular the point (50,50) against view (60,100) — contributes to neither
the lane assignment nor the merged regions. -/
theorem c3_view_filter_exact (l : List PDBRec) (vs ve : Int) :
    (pdbVisible l vs ve).Sublist l ∧
    (∀ e : PDBRec, e ∈ pdbVisible l vs ve ↔
      e ∈ l ∧ ¬(e.uend < vs ∨ e.ustart > ve)) ∧
    (∀ e : PDBRec, e.ustart = 50 → e.uend = 50 →
      (∀ i, (e, i) ∉ pdbAssignments l 60 100) ∧
      pdbVisible l 60 100 =
        pdbVisible (l.filter fun a =>
          !(decide (a.ustart = 50 ∧ a.uend = 50))) 60 100 ∧
      pdbMergedForView l 60 100 =
        pdbMergedForView (l.filter fun a =>
          !(decide (a.ustart = 50 ∧ a.uend = 50))) 60 100) := by
  refine ⟨List.filter_sublist l, ?_, ?_⟩
  · intro e
    rw [pdbVisible, List.mem_filter, pdbVisibleB_iff]
  · intro e h50s h50e
    have hinvis : pdbVisibleB 60 100 e = false := by
      unfold pdbVisibleB
      rw [h50s, h50e]
      rfl
    have hvis_eq : pdbVisible l 60 100 =
        pdbVisible (l.filter fun a =>
          !(decide (a.ustart = 50 ∧ a.uend = 50))) 60 100 := by
      unfold pdbVisible
      rw [List.filter_filter]
      refine (List.filter_congr ?_).symm
      intro a _
      by_cases ha : a.ustart = 50 ∧ a.uend = 50
      · have : pdbVisibleB 60 100 a = false := by
          unfold pdbVisibleB
          rw [ha.1, ha.2]
          rfl
        rw [this]
        simp
      · have : (!(decide (a.ustart = 50 ∧ a.uend = 50))) = true := by
          simp [ha]
        rw [this]
        simp
    refine ⟨?_, hvis_eq, ?_⟩
    · intro i hmem
      have hfst : e ∈ (pdbAssignments l 60 100).map Prod.fst :=
        List.mem_map.2 ⟨(e, i), hmem, rfl⟩
      rw [pdbAssignments_map_fst] at hfst
      have hevis : e ∈ pdbVisible l 60 100 := List.mem_of_mem_filter hfst
      have hbv : pdbVisibleB 60 100 e = true := by
        unfold pdbVisible at hevis
        exact List.of_mem_filter hevis
      rw [hinvis] at hbv
      exact Bool.false_ne_true hbv
    · unfold pdbMergedForView
      rw [hvis_eq]

/-- Witness for C3: one visible interval survives the filter, the point
(50,50) does not reach any output for view (60,100). -/
theorem c3_witness :
    ((PDBRec.mk 70 80 1) ∈ pdbVisible [PDBRec.mk 50 50 0, PDBRec.mk 70 80 1] 60 100 ↔
      ((PDBRec.mk 70 80 1) ∈ ([PDBRec.mk 50 50 0, PDBRec.mk 70 80 1] : List PDBRec) ∧
        ¬((PDBRec.mk 70 80 1).uend < 60 ∨ (PDBRec.mk 70 80 1).ustart > 100))) ∧
    ∀ i, (PDBRec.mk 50 50 0, i) ∉
      pdbAssignments [PDBRec.mk 50 50 0, PDBRec.mk 70 80 1] 60 100 :=
  ⟨((c3_view_filter_exact [PDBRec.mk 50 50 0, PDBRec.mk 70 80 1] 60 100).2.1 _),
    ((c3_view_filter_exact [PDBRec.mk 50 50 0, PDBRec.mk 70 80 1] 60 100).2.2
      (PDBRec.mk 50 50 0) rfl rfl).1⟩

/-- Full-mode height of `PDBTrack._layout_entries_for_view` (lines 136-141,
168-176 and the final fixup 183-187), with `bar_height` and
`bar_vertical_spacing` as rationals. -/
def pdbContentHeightFull (l : List PDBRec) (vs ve : Int) (bh sp : ℚ) : ℚ :=
  if pdbVisible l vs ve = [] then bh
  else if pdbAssignments l vs ve = [] then bh
  else if 0 < pdbNumLanes l vs ve then
    (pdbNumLanes l vs ve : ℚ) * bh + ((pdbNumLanes l vs ve - 1 : ℕ) : ℚ) * sp
  else bh

/-- One custom annotation after processing: normalized coordinates plus an
opaque tag for the rest of the dict. -/
structure CustomAnn where
  cstart : Int
  cend : Int
  tag : Nat
  deriving DecidableEq, Repr

/-- Visibility test of `CustomTrack._layout_entries_for_view` (line 157). -/
def customVisibleB (vs ve : Int) (a : CustomAnn) : Bool :=
  !(decide (a.cend < vs) || decide (a.cstart > ve))

def customVisible (l : List CustomAnn) (vs ve : Int) : List CustomAnn :=
  l.filter (customVisibleB vs ve)

/-- Each visible custom annotation occupies its own lane (lines 160-161). -/
def customNumLanes (l : List CustomAnn) (vs ve : Int) : Nat :=
  (customVisible l vs ve).length

/-- Height of the custom track (lines 162-167). -/
def customContentHeight (l : List CustomAnn) (vs ve : Int) (ah sp : ℚ) : ℚ :=
  if 0 < customNumLanes l vs ve then
    (customNumLanes l vs ve : ℚ) * ah + ((customNumLanes l vs ve - 1 : ℕ) : ℚ) * sp
  else ah

theorem pdbNumLanes_zero_of_visible_nil (l : List PDBRec) (vs ve : Int)
    (h : pdbVisible l vs ve = []) : pdbNumLanes l vs ve = 0 := by
  unfold pdbNumLanes pdbLayoutFull
  rw [h]
  rfl

/-- Claim C7: with at least one lane the content height follows the
`n * row_height + max(0, n-1) * row_spacing` formula (for both the PDB and
the custom track); with zero lanes — in particular for an empty annotation
list — the layout is empty and the height defaults to `row_height`. -/
theorem c7_content_height (l : List PDBRec) (cl : List CustomAnn) (vs ve : Int)
    (bh sp ah asp : ℚ) :
    (1 ≤ pdbNumLanes l vs ve →
      pdbContentHeightFull l vs ve bh sp =
        (pdbNumLanes l vs ve : ℚ) * bh +
          ((pdbNumLanes l vs ve - 1 : ℕ) : ℚ) * sp) ∧
    (pdbNumLanes l vs ve = 0 →
      pdbAssignments l vs ve = [] ∧ pdbContentHeightFull l vs ve bh sp = bh) ∧
    (l = [] → pdbNumLanes l vs ve = 0 ∧ pdbAssignments l vs ve = [] ∧
      pdbMergedForView l vs ve = [] ∧ pdbContentHeightFull l vs ve bh sp = bh) ∧
    (1 ≤ customNumLanes cl vs ve →
      customContentHeight cl vs ve ah asp =
        (customNumLanes cl vs ve : ℚ) * ah +
          ((customNumLanes cl vs ve - 1 : ℕ) : ℚ) * asp) ∧
    (customNumLanes cl vs ve = 0 → customContentHeight cl vs ve ah asp = ah) := by
  refine ⟨?_, ?_, ?_, ?_, ?_⟩
  · intro hn
    have hvis : pdbVisible l vs ve ≠ [] := by
      intro hcon
      have := pdbNumLanes_zero_of_visible_nil l vs ve hcon
      omega
    have hasg : pdbAssignments l vs ve ≠ [] := by
      intro hcon
      have := (pdbAssignments_nil_iff l vs ve).1 hcon
      omega
    unfold pdbContentHeightFull
    rw [if_neg hvis, if_neg hasg, if_pos (by omega)]
  · intro hn
    have hasg : pdbAssignments l vs ve = [] := (pdbAssignments_nil_iff l vs ve).2 hn
    refine ⟨hasg, ?_⟩
    unfold pdbContentHeightFull
    by_cases hvis : pdbVisible l vs ve = []
    · rw [if_pos hvis]
    · rw [if_neg hvis, if_pos hasg]
  · intro hl
    subst hl
    have hvis : pdbVisible ([] : List PDBRec) vs ve = [] := rfl
    refine ⟨pdbNumLanes_zero_of_visible_nil _ vs ve hvis, rfl, rfl, ?_⟩
    unfold pdbContentHeightFull
    rw [if_pos hvis]
  · intro hn
    unfold customContentHeight
    rw [if_pos (by omega)]
  · intro hn
    unfold customContentHeight
    rw [hn]
    rfl

/-- Witness for C7: one PDB interval gives one lane of height `bh`; the
empty PDB list gives the placeholder height; two custom annotations give the
two-lane formula. -/
theorem c7_witness :
    (pdbContentHeightFull [PDBRec.mk 10 20 0] 1 100 2 1 =
      (pdbNumLanes [PDBRec.mk 10 20 0] 1 100 : ℚ) * 2 +
        ((pdbNumLanes [PDBRec.mk 10 20 0] 1 100 - 1 : ℕ) : ℚ) * 1) ∧
    (pdbNumLanes ([] : List PDBRec) 1 100 = 0 ∧
      pdbAssignments ([] : List PDBRec) 1 100 = [] ∧
      pdbMergedForView ([] : List PDBRec) 1 100 = [] ∧
      pdbContentHeightFull ([] : List PDBRec) 1 100 2 1 = 2) ∧
    (customContentHeight [CustomAnn.mk 5 9 0, CustomAnn.mk 7 8 1] 1 100 3 1 =
      (customNumLanes [CustomAnn.mk 5 9 0, CustomAnn.mk 7 8 1] 1 100 : ℚ) * 3 +
        ((customNumLanes [CustomAnn.mk 5 9 0, CustomAnn.mk 7 8 1] 1 100 - 1 : ℕ) : ℚ) * 1) :=
  ⟨(c7_content_height [PDBRec.mk 10 20 0] [] 1 100 2 1 3 1).1 (by decide),
    (c7_content_height ([] : List PDBRec) [] 1 100 2 1 3 1).2.2.1 rfl,
    (c7_content_height [] [CustomAnn.mk 5 9 0, CustomAnn.mk 7 8 1] 1 100 2 1 3 1).2.2.2.1
      (by decide)⟩

/-- One domain-database entry of `InterProTrack`: the accession (a string in
the source, modelled as an opaque sortable key), the parsed
`(start, end)` location segments, and a tag for the remaining fields. -/
structure IPDomain where
  accession : Nat
  locations : List (Int × Int)
  tag : Nat
  deriving DecidableEq, Repr

/-- Visibility of an entry (lines 140-143): `any` of its segments overlaps
the view window. -/
def ipRecVisibleB (vs ve : Int) (a : IPDomain) : Bool :=
  a.locations.any fun seg => !(decide (seg.2 < vs) || decide (seg.1 > ve))

def ipVisible (l : List IPDomain) (vs ve : Int) : List IPDomain :=
  l.filter (ipRecVisibleB vs ve)

def ipAccLE (a b : IPDomain) : Prop := a.accession ≤ b.accession

instance : DecidableRel ipAccLE := fun a b => by
  unfold ipAccLE; infer_instance

/-- `sorted(temp_visible_domains, key=lambda x: x.get("accession", ""))`
(lines 158-160). -/
def ipSortedVisible (l : List IPDomain) (vs ve : Int) : List IPDomain :=
  List.insertionSort ipAccLE (ipVisible l vs ve)

/-- Full-mode lane count: `num_lanes = len(self._visible_domains_full_mode)`
(line 163) — one lane per visible entry. -/
def ipNumLanes (l : List IPDomain) (vs ve : Int) : Nat :=
  (ipSortedVisible l vs ve).length

/-- The lane each entry draws in: `for i, domain_annotation in
enumerate(self._visible_domains_full_mode)` in `_draw_full_mode`. -/
def ipLaneAssignments (l : List IPDomain) (vs ve : Int) : List (Nat × IPDomain) :=
  (ipSortedVisible l vs ve).enum

/-- Claim C5 (amended): the InterPro track's full mode allocates one lane
per visible entry, so the lane count equals the number of visible entries;
it equals the number of distinct accessions only when the visible entries
carry pairwise distinct accessions. -/
theorem c5_lanes_per_entry (l : List IPDomain) (vs ve : Int) :
    ipNumLanes l vs ve = (ipVisible l vs ve).length ∧
    (((ipVisible l vs ve).map IPDomain.accession).Nodup →
      ipNumLanes l vs ve =
        ((ipVisible l vs ve).map IPDomain.accession).dedup.length) := by
  have hlen : ipNumLanes l vs ve = (ipVisible l vs ve).length :=
    (List.perm_insertionSort ipAccLE (ipVisible l vs ve)).length_eq
  refine ⟨hlen, fun hnd => ?_⟩
  rw [List.dedup_eq_self.2 hnd, List.length_map]
  exact hlen

/-- Witness for C5 (amended): two entries with distinct accessions — lane
count equals both the entry count and the distinct-accession count. -/
theorem c5_witness :
    ipNumLanes [IPDomain.mk 3 [(1, 10)] 0, IPDomain.mk 5 [(5, 20)] 1] 1 100 =
      ((ipVisible [IPDomain.mk 3 [(1, 10)] 0, IPDomain.mk 5 [(5, 20)] 1] 1 100).map
        IPDomain.accession).dedup.length :=
  (c5_lanes_per_entry [IPDomain.mk 3 [(1, 10)] 0, IPDomain.mk 5 [(5, 20)] 1] 1 100).2
    (by decide)

/-- Counterexample to C5 as stated: two visible entries sharing accession 7
occupy two different lanes (0 and 1), and the lane count is 2, not the
number of distinct accessions (1). -/
theorem c5_shared_accession_counterexample :
    ipNumLanes [IPDomain.mk 7 [(1, 10)] 0, IPDomain.mk 7 [(5, 20)] 1] 1 100 = 2 ∧
    ((ipVisible [IPDomain.mk 7 [(1, 10)] 0, IPDomain.mk 7 [(5, 20)] 1] 1 100).map
      IPDomain.accession).dedup.length = 1 ∧
    ipLaneAssignments [IPDomain.mk 7 [(1, 10)] 0, IPDomain.mk 7 [(5, 20)] 1] 1 100 =
      [(0, IPDomain.mk 7 [(1, 10)] 0), (1, IPDomain.mk 7 [(5, 20)] 1)] :=
  ⟨by decide, by decide, by decide⟩

/-- Result of the view-range handling of `plot_protein_tracks`: the display
window actually used and whether the invalid-range warning was printed. -/
structure ViewAdjust where
  dstart : Int
  dend : Int
  warned : Bool
  deriving DecidableEq, Repr

/-- `display_start` (lines 45-47): the requested start if present and
positive, else 1. -/
def adjStart (vs : Option Int) : Int :=
  match vs with
  | some s => if 0 < s then s else 1
  | none => 1

/-- `display_end` (lines 48-54): the requested end if present, within the
sequence and right of `display_start`, else `sequence_length`. -/
def adjEnd (seqLen ds : Int) (ve : Option Int) : Int :=
  match ve with
  | some e => if e ≤ seqLen ∧ ds < e then e else seqLen
  | none => seqLen

/-- Lines 55-60: silent reset to the full sequence when the window is still
degenerate, or to (0,1) when the sequence is empty. -/
def fixupRange (seqLen ds de : Int) : Int × Int :=
  if 0 < seqLen ∧ de ≤ ds then (1, seqLen)
  else if seqLen = 0 then (0, 1)
  else (ds, de)

/-- Lines 62-67: the warning branch, reached only if the window is STILL
degenerate after the first reset. -/
def fixupWarn (seqLen : Int) (p : Int × Int) : ViewAdjust :=
  if p.2 ≤ p.1 ∧ 0 < seqLen then ⟨1, seqLen, true⟩ else ⟨p.1, p.2, false⟩

/-- View-range handling of `plot_protein_tracks` (lines 44-68). -/
def adjustViewRange (seqLen : Int) (vs ve : Option Int) : ViewAdjust :=
  fixupWarn seqLen
    (fixupRange seqLen (adjStart vs) (adjEnd seqLen (adjStart vs) ve))

/-- Claim C6 (amended): for a sequence longer than 1, a requested window
that is invalid after clamping to `[1, seqLen]` never raises and never
warns; the end falls back to `seqLen` while the adjusted start is kept, so
the full-sequence window is substituted only when the start reaches
`seqLen`. -/
theorem c6_view_fallback (L vs ve : Int) (hL : 1 < L)
    (hclamp : max 1 (min L ve) ≤ max 1 (min L vs)) :
    (adjustViewRange L (some vs) (some ve)).dend = L ∧
    (adjustViewRange L (some vs) (some ve)).warned = false ∧
    (adjustViewRange L (some vs) (some ve)).dstart =
      if L ≤ vs then 1 else max vs 1 := by
  have h1 : adjStart (some vs) = if 0 < vs then vs else 1 := rfl
  have h2 : adjEnd L (adjStart (some vs)) (some ve) =
      if ve ≤ L ∧ (if 0 < vs then vs else 1) < ve then ve else L := by
    rw [h1]
    rfl
  by_cases hvs : 0 < vs
  · have hde : adjEnd L (adjStart (some vs)) (some ve) = L := by
      rw [h2, if_pos hvs]
      exact if_neg (by omega)
    unfold adjustViewRange fixupWarn fixupRange
    rw [hde, h1, if_pos hvs]
    clear h1 h2 hde
    split_ifs <;> simp_all <;> omega
  · have hde : adjEnd L (adjStart (some vs)) (some ve) = L := by
      rw [h2, if_neg hvs]
      exact if_neg (by omega)
    unfold adjustViewRange fixupWarn fixupRange
    rw [hde, h1, if_neg hvs]
    clear h1 h2 hde
    split_ifs <;> simp_all <;> omega

/-- Witness for C6 (amended): requested window (50,30) with sequence length
100 keeps start 50, replaces the end by 100, and prints no warning. -/
theorem c6_witness :
    (adjustViewRange 100 (some 50) (some 30)).dend = 100 ∧
    (adjustViewRange 100 (some 50) (some 30)).warned = false ∧
    (adjustViewRange 100 (some 50) (some 30)).dstart =
      if (100 : Int) ≤ 50 then 1 else max 50 1 :=
  c6_view_fallback 100 50 30 (by decide) (by decide)

/-- Counterexample to C6 as stated: the requested window (50,30) is invalid
after clamping to [1,100], but the code neither substitutes the
full-sequence window nor warns — it proceeds with (50,100). -/
theorem c6_invalid_view_counterexample :
    max 1 (min 100 (30 : Int)) ≤ max 1 (min 100 (50 : Int)) ∧
    adjustViewRange 100 (some 50) (some 30) = ⟨50, 100, false⟩ ∧
    adjustViewRange 100 (some 50) (some 30) ≠ ⟨1, 100, true⟩ :=
  ⟨by decide, by decide, by decide⟩

/-- A raw field value in a custom-annotation dict, as seen by Python's
`int()`: an integer, a string that parses to an integer, a string that does
not (ValueError), or a non-numeric value such as `None` (TypeError). -/
inductive RawVal where
  | int (n : Int)
  | numStr (n : Int)
  | badStr
  | pyNone
  deriving DecidableEq, Repr

inductive PyErr where
  | valueError
  | typeError
  deriving DecidableEq, Repr

/-- Python's `int(v)` applied to a raw field value. -/
def intOfRawVal : RawVal → Except PyErr Int
  | .int n => .ok n
  | .numStr n => .ok n
  | .badStr => .error .valueError
  | .pyNone => .error .typeError

/-- One raw record of `CustomTrack._process_custom_ann_data`: the optional
`position`, `start` and `end` keys, plus a tag for the other keys. -/
structure RawItem where
  position : Option RawVal
  startVal : Option RawVal
  endVal : Option RawVal
  tag : Nat
  deriving DecidableEq, Repr

/-- Processing of one record (lines 94-127): `position` wins over
`start`/`end` and collapses to a point; missing fields skip the record;
`int()` conversions are guarded by `except ValueError` only, so a
`TypeError` propagates; a reversed pair is swapped. `.ok none` is a skipped
record, `.error` an escaping exception. -/
def processItem (it : RawItem) : Except PyErr (Option (Int × Int)) :=
  match it.position with
  | some pv =>
    match intOfRawVal pv with
    | .error .valueError => .ok none
    | .error .typeError => .error .typeError
    | .ok p => .ok (some (p, p))
  | none =>
    match it.startVal, it.endVal with
    | some sv, some ev =>
      match intOfRawVal sv with
      | .error .valueError => .ok none
      | .error .typeError => .error .typeError
      | .ok s =>
        match intOfRawVal ev with
        | .error .valueError => .ok none
        | .error .typeError => .error .typeError
        | .ok e => .ok (some (if e < s then (e, s) else (s, e)))
    | _, _ => .ok none

/-- The batch loop of `_process_custom_ann_data`: records are processed in
order, skipped records are dropped, and the first uncaught exception aborts
the whole batch. -/
def processCustomAnnData : List RawItem → Except PyErr (List (Int × Int × Nat))
  | [] => .ok []
  | it :: t =>
    match processItem it with
    | .error e => .error e
    | .ok none => processCustomAnnData t
    | .ok (some (s, e)) =>
      match processCustomAnnData t with
      | .error er => .error er
      | .ok rest => .ok ((s, e, it.tag) :: rest)

/-- The per-record skip-or-normalize function underlying the loop. -/
def normItem (it : RawItem) : Option (Int × Int × Nat) :=
  match processItem it with
  | .ok (some (s, e)) => some (s, e, it.tag)
  | _ => none

/-- No field of the record holds a value whose `int()` raises TypeError. -/
def itemValsSafe (it : RawItem) : Prop :=
  it.position ≠ some RawVal.pyNone ∧ it.startVal ≠ some RawVal.pyNone ∧
    it.endVal ≠ some RawVal.pyNone

instance (it : RawItem) : Decidable (itemValsSafe it) := by
  unfold itemValsSafe; infer_instance

theorem processItem_safe (it : RawItem) (h : itemValsSafe it) :
    processItem it ≠ Except.error PyErr.typeError := by
  obtain ⟨pos, sv, ev, tag⟩ := it
  obtain ⟨h1, h2, h3⟩ := h
  cases pos with
  | some pv => cases pv <;> simp_all [processItem, intOfRawVal]
  | none =>
    cases sv with
    | none => simp [processItem]
    | some svv =>
      cases ev with
      | none => simp [processItem]
      | some evv =>
        cases svv <;> cases evv <;> simp_all [processItem, intOfRawVal]

theorem processItem_wf (it : RawItem) (s e : Int)
    (h : processItem it = .ok (some (s, e))) : s ≤ e := by
  obtain ⟨pos, sv, ev, tag⟩ := it
  cases pos with
  | some pv =>
    cases pv <;> simp_all [processItem, intOfRawVal] <;> omega
  | none =>
    cases sv with
    | none => simp_all [processItem]
    | some svv =>
      cases ev with
      | none => simp_all [processItem]
      | some evv =>
        cases svv <;> cases evv <;> simp_all [processItem, intOfRawVal] <;>
          split_ifs at h <;> simp_all <;> omega

theorem processItem_ne_valueError (it : RawItem) :
    processItem it ≠ Except.error PyErr.valueError := by
  obtain ⟨pos, sv, ev, tag⟩ := it
  cases pos with
  | some pv => cases pv <;> simp [processItem, intOfRawVal]
  | none =>
    cases sv with
    | none => simp [processItem]
    | some svv =>
      cases ev with
      | none => simp [processItem]
      | some evv => cases svv <;> cases evv <;> simp [processItem, intOfRawVal]

theorem processCustomAnnData_cons (it : RawItem) (t : List RawItem) :
    processCustomAnnData (it :: t) =
      match processItem it with
      | .error e => .error e
      | .ok none => processCustomAnnData t
      | .ok (some (s, e)) =>
        match processCustomAnnData t with
        | .error er => .error er
        | .ok rest => .ok ((s, e, it.tag) :: rest) := rfl

theorem processCustomAnnData_cons_skip (it : RawItem) (t : List RawItem)
    (h : processItem it = .ok none) :
    processCustomAnnData (it :: t) = processCustomAnnData t := by
  rw [processCustomAnnData_cons, h]

theorem processCustomAnnData_cons_keep (it : RawItem) (t : List RawItem)
    (s e : Int) (h : processItem it = .ok (some (s, e))) :
    processCustomAnnData (it :: t) =
      match processCustomAnnData t with
      | .error er => .error er
      | .ok rest => .ok ((s, e, it.tag) :: rest) := by
  rw [processCustomAnnData_cons, h]

theorem processCustomAnnData_eq_filterMap :
    ∀ l : List RawItem, (∀ it ∈ l, itemValsSafe it) →
      processCustomAnnData l = .ok (l.filterMap normItem) := by
  intro l
  induction l with
  | nil => intro _; rfl
  | cons it t ih =>
    intro h
    cases hpi : processItem it with
    | error er =>
      cases er with
      | valueError => exact absurd hpi (processItem_ne_valueError it)
      | typeError =>
        exact absurd hpi (processItem_safe it (h it (List.mem_cons_self it t)))
    | ok o =>
      cases o with
      | none =>
        rw [processCustomAnnData_cons_skip it t hpi, List.filterMap_cons]
        have hni : normItem it = none := by
          unfold normItem
          rw [hpi]
        rw [hni]
        exact ih fun x hx => h x (List.mem_cons_of_mem it hx)
      | some p =>
        obtain ⟨s, e⟩ := p
        rw [processCustomAnnData_cons_keep it t s e hpi]
        rw [ih fun x hx => h x (List.mem_cons_of_mem it hx)]
        have hni : normItem it = some (s, e, it.tag) := by
          unfold normItem
          rw [hpi]
        rw [List.filterMap_cons, hni]

/-- Claim C9 (amended): when no field value raises TypeError, normalization
skips missing-field and ValueError records while keeping the rest, returns
pairs with `start <= end` (reversed pairs swapped), and no exception
escapes; a TypeError (e.g. a `None` value) is NOT caught and aborts the
batch. -/
theorem c9_normalization (l : List RawItem)
    (h : ∀ it ∈ l, itemValsSafe it) :
    processCustomAnnData l = .ok (l.filterMap normItem) ∧
    ∀ r ∈ l.filterMap normItem, r.1 ≤ r.2.1 := by
  refine ⟨processCustomAnnData_eq_filterMap l h, ?_⟩
  intro r hr
  rcases List.mem_filterMap.1 hr with ⟨it, hit, hni⟩
  unfold normItem at hni
  cases hpi : processItem it with
  | error er =>
    rw [hpi] at hni
    exact Option.noConfusion hni
  | ok o =>
    cases o with
    | none =>
      rw [hpi] at hni
      exact Option.noConfusion hni
    | some p =>
      obtain ⟨s, e⟩ := p
      rw [hpi] at hni
      cases hni
      exact processItem_wf it s e hpi

/-- Witness for C9 (amended): a reversed record is swapped, a point record
collapses, a ValueError record and a missing-field record are skipped, and
the batch succeeds. -/
theorem c9_witness :
    processCustomAnnData
        [RawItem.mk none (some (RawVal.int 9)) (some (RawVal.int 3)) 0,
          RawItem.mk (some (RawVal.int 4)) none none 1,
          RawItem.mk none (some RawVal.badStr) (some (RawVal.int 5)) 2,
          RawItem.mk none (some (RawVal.int 1)) none 3] =
      .ok (([RawItem.mk none (some (RawVal.int 9)) (some (RawVal.int 3)) 0,
          RawItem.mk (some (RawVal.int 4)) none none 1,
          RawItem.mk none (some RawVal.badStr) (some (RawVal.int 5)) 2,
          RawItem.mk none (some (RawVal.int 1)) none 3]).filterMap normItem) ∧
    ([RawItem.mk none (some (RawVal.int 9)) (some (RawVal.int 3)) 0,
        RawItem.mk (some (RawVal.int 4)) none none 1,
        RawItem.mk none (some RawVal.badStr) (some (RawVal.int 5)) 2,
        RawItem.mk none (some (RawVal.int 1)) none 3]).filterMap normItem =
      [(3, 9, 0), (4, 4, 1)] :=
  ⟨(c9_normalization _ (by decide)).1, by decide⟩

/-- Counterexample to C9 as stated: a record whose `start` is `None` raises
TypeError, which the `except ValueError` handler does not catch — the
exception escapes and the following valid record is lost. -/
theorem c9_typeerror_counterexample :
    processCustomAnnData
        [RawItem.mk none (some RawVal.pyNone) (some (RawVal.int 5)) 0,
          RawItem.mk (some (RawVal.int 7)) none none 1] =
      Except.error PyErr.typeError := by
  rfl

end ProtViz
